import Mathlib

/-!
Verification of the NCCUMISOJ execution-agent worker (`src/agent.js`,
`src/runner.js`, `src/config/config.js`, `src/testTemplates.js`).

The JavaScript source is shallowly embedded: pure computations become Lean
functions; the stateful log-stream parser and the timeout/exit race inside
`Runner.executeTests` become a step function over an explicit state, driven by
a list of events (chunk arrival, timer fire, container wait callback, stream
error); host I/O (Docker, the filesystem, telemetry sampling) is passed in as
explicit oracle results.  JSON values are modelled by the `Json` type below;
`JSON.parse` is a parameter wherever the embedded code calls it, and a
concrete executable `jsonParse` (covering the fragment the harness emits) is
provided for evaluating the model on concrete inputs.
-/

namespace Worker

/-! ## JSON values

Mutual inductive so that all recursions over a value are structural.
`Fields` keeps object keys in insertion order, as JavaScript does for
string keys. -/

mutual

inductive Json where
  | null : Json
  | bool (b : Bool) : Json
  | num (n : Int) : Json
  | str (s : String) : Json
  | arr (elems : JsonList) : Json
  | obj (fields : JsonFields) : Json

inductive JsonList where
  | nil : JsonList
  | cons (hd : Json) (tl : JsonList) : JsonList

inductive JsonFields where
  | nil : JsonFields
  | cons (key : String) (val : Json) (tl : JsonFields) : JsonFields

end

/-- First binding of a key in an object's field list (JS property lookup). -/
def JsonFields.lookup (k : String) : JsonFields → Option Json
  | .nil => none
  | .cons key v tl => if key = k then some v else JsonFields.lookup k tl

/-- JavaScript property access `v[k]` on a parsed JSON value: `some` when the
value is an object with the key, `none` for a missing key or a non-object
(the access yields `undefined`).  Access on `null` throws in JS; callers in
the embedding handle `Json.null` separately where the source could throw. -/
def Json.get (j : Json) (k : String) : Option Json :=
  match j with
  | .obj fs => fs.lookup k
  | _ => none

/-! ## JS string primitives used by the source, on `List Char` -/

/-- The character `\x7b` (left brace). -/
def lbrace : Char := Char.ofNat 123

/-- The character `\x7d` (right brace). -/
def rbrace : Char := Char.ofNat 125

/-- The characters removed by the chunk-sanitising regex in
`Runner.executeTests`: `[\u0000-\u0008\u000B-\u000C\u000E-\u001F]`. -/
def isStrippedCtrl (c : Char) : Bool :=
  (c.toNat ≤ 0x8) || (0xB ≤ c.toNat && c.toNat ≤ 0xC) ||
    (0xE ≤ c.toNat && c.toNat ≤ 0x1F)

/-- `chunk.toString().replace(/[\u0000-\u0008\u000B-\u000C\u000E-\u001F]/g, '')`. -/
def stripCtrl (l : List Char) : List Char :=
  l.filter (fun c => !isStrippedCtrl c)

/-- Prepend a character to the first segment (`[[c]]` when there is none). -/
def consHead (c : Char) : List (List Char) → List (List Char)
  | [] => [[c]]
  | x :: xs => (c :: x) :: xs

/-- Prepend a prefix to the first segment (`[p]` when there is none). -/
def prefixHead (p : List Char) : List (List Char) → List (List Char)
  | [] => [p]
  | x :: xs => (p ++ x) :: xs

/-- `s.split('\n')` on character lists: the segments between line feeds, in
order, including a (possibly empty) trailing segment.  Never returns `[]`. -/
def splitLF : List Char → List (List Char)
  | [] => [[]]
  | c :: rest =>
    if c = '\n' then [] :: splitLF rest else consHead c (splitLF rest)

/-- The text after the last line feed (the whole text when there is none):
what remains in the parser's buffer. -/
def afterLastLF (l : List Char) : List Char :=
  (l.reverse.takeWhile (fun c => c ≠ '\n')).reverse

/-- Rejoin what `splitLF` produced: interpose a line feed between segments. -/
def joinLF : List (List Char) → List Char
  | [] => []
  | [s] => s
  | s :: rest => s ++ '\n' :: joinLF rest

/-- Whitespace for JavaScript `String.prototype.trim` (the code points that
can still be present after control-character stripping, plus the classic
Unicode space set). -/
def isJsSpace (c : Char) : Bool :=
  c = ' ' || c = '\t' || c = '\n' || c = '\r' ||
    c.toNat = 0xB || c.toNat = 0xC || c.toNat = 0xA0 || c.toNat = 0x1680 ||
    (0x2000 ≤ c.toNat && c.toNat ≤ 0x200A) ||
    c.toNat = 0x2028 || c.toNat = 0x2029 || c.toNat = 0x202F ||
    c.toNat = 0x205F || c.toNat = 0x3000 || c.toNat = 0xFEFF

/-- `line.trim()`. -/
def jsTrim (l : List Char) : List Char :=
  ((l.dropWhile isJsSpace).reverse.dropWhile isJsSpace).reverse

/-- `trimmedLine.replace(/^[^{]*/, '')`: drop everything before the first
left brace. -/
def dropToBrace (l : List Char) : List Char :=
  l.dropWhile (fun c => c ≠ lbrace)

/-! ## `JSON.stringify`

The serialisation used when the runner inlines `job.testCases` into the
harness template.  String escaping follows the JSON quoting rules for the
characters that need it. -/

/-- One lower-case hexadecimal digit. -/
def hexDigit (n : Nat) : Char :=
  if n < 10 then Char.ofNat ('0'.toNat + n) else Char.ofNat ('a'.toNat + (n - 10))

/-- Escape one character for a JSON string literal. -/
def jsonEscapeChar (c : Char) : List Char :=
  if c = '"' then ['\\', '"']
  else if c = '\\' then ['\\', '\\']
  else if c = '\n' then ['\\', 'n']
  else if c = '\r' then ['\\', 'r']
  else if c = '\t' then ['\\', 't']
  else if c.toNat = 0x8 then ['\\', 'b']
  else if c.toNat = 0xC then ['\\', 'f']
  else if c.toNat < 0x20 then
    ['\\', 'u', '0', '0', hexDigit (c.toNat / 16), hexDigit (c.toNat % 16)]
  else [c]

/-- Quote a string as a JSON string literal. -/
def jsonQuote (s : String) : List Char :=
  '"' :: (s.data.flatMap jsonEscapeChar) ++ ['"']

mutual

/-- `JSON.stringify` on the `Json` model (no indentation argument, as in the
source). -/
def jsonStringify : Json → List Char
  | .null => "null".data
  | .bool true => "true".data
  | .bool false => "false".data
  | .num n => (toString n).data
  | .str s => jsonQuote s
  | .arr elems => '[' :: jsonStringifyList elems ++ [']']
  | .obj fields => lbrace :: jsonStringifyFields fields ++ [rbrace]

/-- Elements of an array, comma-separated. -/
def jsonStringifyList : JsonList → List Char
  | .nil => []
  | .cons hd .nil => jsonStringify hd
  | .cons hd tl => jsonStringify hd ++ ',' :: jsonStringifyList tl

/-- Fields of an object, comma-separated `"key":value` pairs. -/
def jsonStringifyFields : JsonFields → List Char
  | .nil => []
  | .cons k v .nil => jsonQuote k ++ ':' :: jsonStringify v
  | .cons k v tl => jsonQuote k ++ ':' :: jsonStringify v ++ ',' :: jsonStringifyFields tl

end

/-! ## `JSON.parse`

An executable parser for the JSON fragment the harness emits (null, booleans,
integer numerals, strings with the standard short escapes, arrays, objects).
It is used to instantiate the `parse` parameter of the stream model on
concrete inputs; the general theorems hold for any parse function. -/

/-- Skip JSON whitespace. -/
def skipWs (l : List Char) : List Char :=
  l.dropWhile (fun c => c = ' ' || c = '\t' || c = '\n' || c = '\r')

/-- Parse the body of a JSON string literal after the opening quote; returns
the content and the rest after the closing quote. -/
def parseStringBody (fuel : Nat) (l : List Char) : Option (List Char × List Char) :=
  match fuel, l with
  | 0, _ => none
  | _, [] => none
  | fuel + 1, c :: rest =>
    if c = '"' then some ([], rest)
    else if c = '\\' then
      match rest with
      | [] => none
      | e :: rest2 =>
        let dec : Option Char :=
          if e = '"' then some '"'
          else if e = '\\' then some '\\'
          else if e = '/' then some '/'
          else if e = 'n' then some '\n'
          else if e = 't' then some '\t'
          else if e = 'r' then some '\r'
          else if e = 'b' then some (Char.ofNat 0x8)
          else if e = 'f' then some (Char.ofNat 0xC)
          else none
        match dec with
        | none => none
        | some d =>
          match parseStringBody fuel rest2 with
          | none => none
          | some (body, rest3) => some (d :: body, rest3)
    else
      match parseStringBody fuel rest with
      | none => none
      | some (body, rest2) => some (c :: body, rest2)

mutual

/-- Parse one JSON value; returns the value and the unconsumed rest. -/
def parseValue (fuel : Nat) (l : List Char) : Option (Json × List Char) :=
  match fuel with
  | 0 => none
  | fuel + 1 =>
    match skipWs l with
    | [] => none
    | c :: rest =>
      if c = 'n' then
        if rest.take 3 = ['u', 'l', 'l'] then some (.null, rest.drop 3) else none
      else if c = 't' then
        if rest.take 3 = ['r', 'u', 'e'] then some (.bool true, rest.drop 3) else none
      else if c = 'f' then
        if rest.take 4 = ['a', 'l', 's', 'e'] then some (.bool false, rest.drop 4) else none
      else if c = '"' then
        match parseStringBody (l.length) rest with
        | none => none
        | some (body, rest2) => some (.str (String.mk body), rest2)
      else if c = '[' then
        match skipWs rest with
        | ']' :: rest2 => some (.arr .nil, rest2)
        | _ =>
          match parseElems fuel rest with
          | none => none
          | some (elems, rest2) => some (.arr elems, rest2)
      else if c = lbrace then
        match skipWs rest with
        | r :: rest2 =>
          if r = rbrace then some (.obj .nil, rest2)
          else
            match parseMembers fuel (skipWs rest) with
            | none => none
            | some (fields, rest3) => some (.obj fields, rest3)
        | [] => none
      else if c = '-' || ('0' ≤ c && c ≤ '9') then
        let (digits, rest2) :=
          if c = '-' then (rest.takeWhile Char.isDigit, rest.dropWhile Char.isDigit)
          else ((c :: rest).takeWhile Char.isDigit, (c :: rest).dropWhile Char.isDigit)
        if digits = [] then none
        else
          let mag : Nat := digits.foldl (fun acc d => acc * 10 + (d.toNat - '0'.toNat)) 0
          some (.num (if c = '-' then -(mag : Int) else (mag : Int)), rest2)
      else none

/-- Parse a non-empty comma-separated element list and its closing bracket. -/
def parseElems (fuel : Nat) (l : List Char) : Option (JsonList × List Char) :=
  match fuel with
  | 0 => none
  | fuel + 1 =>
    match parseValue fuel l with
    | none => none
    | some (v, rest) =>
      match skipWs rest with
      | ',' :: rest2 =>
        match parseElems fuel rest2 with
        | none => none
        | some (tl, rest3) => some (.cons v tl, rest3)
      | ']' :: rest2 => some (.cons v .nil, rest2)
      | _ => none

/-- Parse a non-empty member list of an object and its closing brace. -/
def parseMembers (fuel : Nat) (l : List Char) : Option (JsonFields × List Char) :=
  match fuel with
  | 0 => none
  | fuel + 1 =>
    match skipWs l with
    | '"' :: rest =>
      match parseStringBody (l.length + 1) rest with
      | none => none
      | some (key, rest2) =>
        match skipWs rest2 with
        | ':' :: rest3 =>
          match parseValue fuel rest3 with
          | none => none
          | some (v, rest4) =>
            match skipWs rest4 with
            | ',' :: rest5 =>
              match parseMembers fuel rest5 with
              | none => none
              | some (tl, rest6) => some (.cons (String.mk key) v tl, rest6)
            | r :: rest5 =>
              if r = rbrace then some (.cons (String.mk key) v .nil, rest5) else none
            | [] => none
        | _ => none
    | _ => none

end

/-- `JSON.parse(s)` for the fragment above: `none` models a thrown
`SyntaxError` (the whole input must be one value, up to trailing
whitespace). -/
def jsonParse (s : String) : Option Json :=
  match parseValue (s.length + 1) s.data with
  | none => none
  | some (v, rest) => if skipWs rest = [] then some v else none

/-! ## `String.prototype.replace` with a string pattern

`template.replace('\x7b\x7bTEST_CASES\x7d\x7d', replacement)` replaces the
first occurrence of the pattern and — per the ECMAScript `GetSubstitution`
algorithm — processes `$` escapes in the *replacement*: `$$` is a literal
dollar, `$&` the matched text, a dollar before a backquote the text before
the match, `$'` the text after the match.  With a string pattern there are no
capture groups, so `$<digit>` and everything else stay literal. -/

/-- The backquote character (`\x60`). -/
def backquoteChar : Char := Char.ofNat 0x60

/-- The single-quote character (`\x27`). -/
def squoteChar : Char := Char.ofNat 0x27

/-- ECMAScript `GetSubstitution` for a string pattern (no captures):
expand `$` escapes in the replacement text. -/
def getSubstitution (matched pre post : List Char) : List Char → List Char
  | [] => []
  | '$' :: c :: rest =>
    if c = '$' then '$' :: getSubstitution matched pre post rest
    else if c = '&' then matched ++ getSubstitution matched pre post rest
    else if c = backquoteChar then pre ++ getSubstitution matched pre post rest
    else if c = squoteChar then post ++ getSubstitution matched pre post rest
    else '$' :: c :: getSubstitution matched pre post rest
  | c :: rest => c :: getSubstitution matched pre post rest

/-- Index of the first occurrence of `pat` in `l`, if any. -/
def findSub (l pat : List Char) : Option Nat :=
  match l with
  | [] => if pat = [] then some 0 else none
  | _ :: rest =>
    if pat.isPrefixOf l then some 0
    else
      match findSub rest pat with
      | none => none
      | some i => some (i + 1)

/-- `haystack.replace(pattern, replacement)` with a string pattern: first
occurrence only, `GetSubstitution` applied to the replacement. -/
def jsReplaceFirst (haystack pattern replacement : List Char) : List Char :=
  match findSub haystack pattern with
  | none => haystack
  | some i =>
    let pre := haystack.take i
    let post := haystack.drop (i + pattern.length)
    pre ++ getSubstitution pattern pre post replacement ++ post

/-! ## `config/config.js` -/

/-- One entry of `languageConfigs` in `config/config.js`. -/
structure LangConfig where
  memoryLimit : Nat
  cpuLimit : Rat
  timeout : Nat
  image : String
  fileExtension : String
  runCommand : List String
  compileCommand : Option (List String)

/-- The `languageConfigs` table from `config/config.js`
(`config.languages`); `none` for a tag absent from it. -/
def languageConfigs (tag : String) : Option LangConfig :=
  if tag = "javascript" then
    some { memoryLimit := 256, cpuLimit := 1 / 2, timeout := 10000,
           image := "node:lts-alpine", fileExtension := ".js",
           runCommand := ["node"], compileCommand := none }
  else if tag = "python" then
    some { memoryLimit := 128, cpuLimit := 3 / 10, timeout := 8000,
           image := "python:3.13.1-alpine", fileExtension := ".py",
           runCommand := ["python"], compileCommand := none }
  else if tag = "java" then
    some { memoryLimit := 512, cpuLimit := 1 / 2, timeout := 15000,
           image := "amazoncorretto:21", fileExtension := ".java",
           runCommand := ["java"], compileCommand := some ["javac"] }
  else none

/-! ## `testTemplates.js` -/

/-- The `python` harness template from `testTemplates.js`, verbatim. -/
def pythonTemplate : String :=
  "\nimport json\nimport sys\nimport traceback\nfrom time import time\n\ndef run_tests(test_cases, solution_func):\n    results = \x7b\n        \x27total\x27: len(test_cases),\n        \x27passed\x27: 0,\n        \x27failed\x27: 0,\n        \x27execution_time\x27: 0,\n        \x27cases\x27: []\n    \x7d\n    \n    total_start = time()\n    \n    for i, test_case in enumerate(test_cases, 1):\n        case_result = \x7b\n            \x27id\x27: i,\n            \x27status\x27: \x27failed\x27,  # default status\n            \x27input\x27: test_case[\x27input\x27],\n            \x27expected\x27: test_case[\x27expected\x27]\n        \x7d\n        \n        try:\n            start_time = time()\n            actual = solution_func(*test_case[\x27input\x27])\n            end_time = time()\n            \n            case_result.update(\x7b\n                \x27actual\x27: actual,\n                \x27time\x27: round((end_time - start_time) * 1000, 2),  # ms\n                \x27status\x27: \x27passed\x27 if actual == test_case[\x27expected\x27] else \x27failed\x27,\n                \x27error\x27: None\n            \x7d)\n            \n            if case_result[\x27status\x27] == \x27passed\x27:\n                results[\x27passed\x27] += 1\n            else:\n                results[\x27failed\x27] += 1\n                case_result[\x27reason\x27] = \x27Wrong Answer\x27\n                \n        except Exception as e:\n            results[\x27failed\x27] += 1\n            case_result.update(\x7b\n                \x27status\x27: \x27error\x27,\n                \x27error\x27: \x7b\n                    \x27type\x27: type(e).__name__,\n                    \x27message\x27: str(e),\n                    \x27traceback\x27: traceback.format_exc()\n                \x7d\n            \x7d)\n        \n        results[\x27cases\x27].append(case_result)\n        # 即時輸出結果\n        print(json.dumps(\x7b\"type\": \"test_result\", \"data\": case_result\x7d), flush=True)\n    \n    results[\x27execution_time\x27] = round((time() - total_start) * 1000, 2)  # ms\n    print(json.dumps(\x7b\"type\": \"final_result\", \"data\": results\x7d), flush=True)\n\nif __name__ == \x27__main__\x27:\n    import solution\n    test_cases = \x7b\x7bTEST_CASES\x7d\x7d  # 將被替換為實際的測試案例\n    run_tests(test_cases, solution.solution)\n"

/-- The `javascript` harness template from `testTemplates.js`, verbatim. -/
def javascriptTemplate : String :=
  "\nconst \x7b performance \x7d = require(\x27perf_hooks\x27);\n\nasync function runTests(testCases, solutionFunc) \x7b\n    const results = \x7b\n        total: testCases.length,\n        passed: 0,\n        failed: 0,\n        execution_time: 0,\n        cases: []\n    \x7d;\n\n    const totalStart = performance.now();\n\n    for (let i = 0; i < testCases.length; i++) \x7b\n        const testCase = testCases[i];\n        const caseResult = \x7b\n            id: i + 1,\n            status: \x27failed\x27,\n            input: testCase.input,\n            expected: testCase.expected\n        \x7d;\n\n        try \x7b\n            const startTime = performance.now();\n            const actual = await solutionFunc(...testCase.input);\n            const endTime = performance.now();\n\n            const isEqual = JSON.stringify(actual) === JSON.stringify(testCase.expected);\n            \n            caseResult.actual = actual;\n            caseResult.time = Math.round((endTime - startTime) * 100) / 100;\n            caseResult.status = isEqual ? \x27passed\x27 : \x27failed\x27;\n            caseResult.error = null;\n\n            if (isEqual) \x7b\n                results.passed++;\n            \x7d else \x7b\n                results.failed++;\n                caseResult.reason = \x27Wrong Answer\x27;\n            \x7d\n        \x7d catch (e) \x7b\n            results.failed++;\n            caseResult.status = \x27error\x27;\n            caseResult.error = \x7b\n                type: e.name,\n                message: e.message,\n                stack: e.stack\n            \x7d;\n        \x7d\n\n        results.cases.push(caseResult);\n        console.log(JSON.stringify(\x7b type: \x27test_result\x27, data: caseResult \x7d));\n    \x7d\n\n    results.execution_time = Math.round((performance.now() - totalStart) * 100) / 100;\n    console.log(JSON.stringify(\x7b type: \x27final_result\x27, data: results \x7d));\n\x7d\n\nconst solution = require(\x27./solution\x27);\nconst testCases = \x7b\x7bTEST_CASES\x7d\x7d;\nrunTests(testCases, solution.solution);\n"

/-- The `java` harness template from `testTemplates.js`, verbatim. -/
def javaTemplate : String :=
  "\nimport java.util.*;\nimport com.fasterxml.jackson.databind.ObjectMapper;\n\npublic class TestRunner \x7b\n    static class TestCase \x7b\n        public Object[] input;\n        public Object expected;\n    \x7d\n\n    static class CaseResult \x7b\n        public int id;\n        public String status = \"failed\";\n        public Object[] input;\n        public Object expected;\n        public Object actual;\n        public double time;\n        public String reason;\n        public Map<String, String> error;\n    \x7d\n\n    static class TestResults \x7b\n        public int total;\n        public int passed = 0;\n        public int failed = 0;\n        public double execution_time;\n        public List<CaseResult> cases = new ArrayList<>();\n    \x7d\n\n    public static void main(String[] args) throws Exception \x7b\n        ObjectMapper mapper = new ObjectMapper();\n        TestCase[] testCases = \x7b\x7bTEST_CASES\x7d\x7d;\n        \n        TestResults results = new TestResults();\n        results.total = testCases.length;\n        \n        long totalStart = System.nanoTime();\n        \n        for (int i = 0; i < testCases.length; i++) \x7b\n            TestCase testCase = testCases[i];\n            CaseResult caseResult = new CaseResult();\n            caseResult.id = i + 1;\n            caseResult.input = testCase.input;\n            caseResult.expected = testCase.expected;\n            \n            try \x7b\n                long start = System.nanoTime();\n                Object actual = Solution.solution(testCase.input);\n                long end = System.nanoTime();\n                \n                caseResult.actual = actual;\n                caseResult.time = (end - start) / 1_000_000.0; // convert to ms\n                \n                boolean isEqual = Objects.deepEquals(actual, testCase.expected);\n                if (isEqual) \x7b\n                    caseResult.status = \"passed\";\n                    results.passed++;\n                \x7d else \x7b\n                    caseResult.status = \"failed\";\n                    caseResult.reason = \"Wrong Answer\";\n                    results.failed++;\n                \x7d\n            \x7d catch (Exception e) \x7b\n                results.failed++;\n                caseResult.status = \"error\";\n                Map<String, String> error = new HashMap<>();\n                error.put(\"type\", e.getClass().getName());\n                error.put(\"message\", e.getMessage());\n                error.put(\"stackTrace\", Arrays.toString(e.getStackTrace()));\n                caseResult.error = error;\n            \x7d\n            \n            results.cases.add(caseResult);\n            System.out.println(mapper.writeValueAsString(\n                Map.of(\"type\", \"test_result\", \"data\", caseResult)\n            ));\n        \x7d\n        \n        results.execution_time = (System.nanoTime() - totalStart) / 1_000_000.0;\n        System.out.println(mapper.writeValueAsString(\n            Map.of(\"type\", \"final_result\", \"data\", results)\n        ));\n    \x7d\n\x7d\n"


/-- `testTemplates[language]`. -/
def testTemplates (tag : String) : Option String :=
  if tag = "python" then some pythonTemplate
  else if tag = "javascript" then some javascriptTemplate
  else if tag = "java" then some javaTemplate
  else none

/-- The substitution token `\x7b\x7bTEST_CASES\x7d\x7d`. -/
def testCasesToken : List Char := "\x7b\x7bTEST_CASES\x7d\x7d".data

/-! ## `Runner.prepareFiles` (file contents)

`prepareFiles` writes, for each supported language, a solution file whose
content is `code` verbatim and a test file whose content is
`testTemplates[language].replace('\x7b\x7bTEST_CASES\x7d\x7d', JSON.stringify(testCases))`.
The directory naming and the write/readdir calls are host I/O; the claims are
about the written contents, embedded here. -/

/-- Content of the solution file `fs.writeFile(solutionPath, code)` writes. -/
def solutionFileContent (code : String) : String := code

/-- Content of the test file `prepareFiles` writes for a supported language:
the harness template with the token substituted via JavaScript
`String.prototype.replace` (string pattern). -/
def testFileContent (tag : String) (testCases : Json) : Option String :=
  match testTemplates tag with
  | none => none
  | some tpl =>
    some (String.mk (jsReplaceFirst tpl.data testCasesToken (jsonStringify testCases)))

/-- What the spec's words prescribe for the test file: the harness template
with the single token `\x7b\x7bTEST_CASES\x7d\x7d` replaced by the JSON
serialisation of `job.testCases`, *verbatim* — nothing else substituted.
Modelled from the spec for comparison with `testFileContent`. -/
def specTestFileContent (tag : String) (testCases : Json) : Option String :=
  match testTemplates tag with
  | none => none
  | some tpl =>
    match findSub tpl.data testCasesToken with
    | none => some tpl
    | some i =>
      some (String.mk (tpl.data.take i ++ jsonStringify testCases ++
        tpl.data.drop (i + testCasesToken.length)))

/-! ## `Runner.executeTests`

The promise body of `executeTests` is a reactive computation: a `data`
handler on the log stream, a single-shot timer, a `wait` callback and a
stream `error` handler race to settle one promise.  It is embedded as a step
function over `ExecState`, driven by a list of `Ev` events in arrival order.
`parse` stands for `JSON.parse`. -/

/-- The fields of `finalResults` as built at `runner.js:235-242`: `success`
is `result.data.failed === 0`; the other five fields are the corresponding
properties of `result.data` (`none` models `undefined` for a missing
property or a non-object `data`). -/
structure JobOutcome where
  success : Bool
  total : Option Json
  passed : Option Json
  failed : Option Json
  cases : Option Json
  execution_time : Option Json

/-- `runner.js:235-242`: build `finalResults` from `result.data`.  (`d` is
never `Json.null` here: the caller skips that case because `null.failed`
would throw.) -/
def mkOutcome (d : Json) : JobOutcome :=
  { success := match d.get "failed" with | some (.num 0) => true | _ => false
    total := d.get "total"
    passed := d.get "passed"
    failed := d.get "failed"
    cases := d.get "cases"
    execution_time := d.get "execution_time" }

/-- `runner.js:231-243`: the effect of one successfully decoded line on
`finalResults`.  A `final_result` object with a usable `data` property
overwrites `finalResults`; everything else — `test_result` events included —
leaves the state unchanged.  Property access that would throw a `TypeError`
(`result.type` on `null`, `result.data.failed` on a missing or `null`
`data`) is caught by the surrounding `try` and skips the line. -/
def applyDecoded (fr : Option JobOutcome) (j : Json) : Option JobOutcome :=
  match j with
  | .obj fs =>
    match fs.lookup "type" with
    | some (.str t) =>
      if t = "final_result" then
        match fs.lookup "data" with
        | none => fr
        | some .null => fr
        | some d => some (mkOutcome d)
      else fr
    | _ => fr
  | _ => fr

/-- `runner.js:224-247`: one complete line.  Trim; skip if empty; drop the
prefix before the first brace; attempt `JSON.parse`; a decode failure is
logged and skipped. -/
def lineStep (parse : String → Option Json) (fr : Option JobOutcome)
    (line : List Char) : Option JobOutcome :=
  let trimmed := jsTrim line
  if trimmed = [] then fr
  else
    match parse (String.mk (dropToBrace trimmed)) with
    | none => fr
    | some j => applyDecoded fr j

/-- State of the promise body in `executeTests`. -/
structure ExecState where
  /-- `buffer`: the retained trailing partial line. -/
  buffer : List Char
  /-- `finalResults`. -/
  finalResults : Option JobOutcome
  /-- Whether the single-shot timer is still pending (armed, not fired, not
  cleared). -/
  timerActive : Bool
  /-- The duration the timer was armed with (`timeout` argument). -/
  timerDelay : Nat
  /-- The promise: `none` while pending, `some (.ok _)` after `resolve`,
  `some (.error _)` after `reject`.  Settling is first-writer-wins. -/
  settled : Option (Except String JobOutcome)

/-- Settle the promise: a no-op if it is already settled. -/
def settle (st : ExecState) (r : Except String JobOutcome) : ExecState :=
  if st.settled.isSome then st else { st with settled := some r }

/-- The events that can reach the promise body, in arrival order. -/
inductive Ev where
  /-- A chunk of the log stream (`stream.on('data')`), already decoded to
  text by `chunk.toString()`. -/
  | chunk (data : List Char)
  /-- The `setTimeout` callback fires. -/
  | timerFire
  /-- The `container.wait` callback: an error, or the exit status code. -/
  | wait (r : Except String Nat)
  /-- `stream.on('error')`. -/
  | streamError (e : String)

/-- `runner.js:216-248`: the `data` handler.  Strip control characters,
split the buffered text on LF keeping the trailing partial line, and run
`lineStep` over each complete line. -/
def chunkStep (parse : String → Option Json) (st : ExecState)
    (data : List Char) : ExecState :=
  let segs := splitLF (st.buffer ++ stripCtrl data)
  { st with
    buffer := segs.getLastD []
    finalResults := segs.dropLast.foldl (lineStep parse) st.finalResults }

/-- One event of the promise body (`runner.js:205-269`). -/
def step (parse : String → Option Json) (st : ExecState) : Ev → ExecState
  | .chunk data => chunkStep parse st data
  | .timerFire =>
    if st.timerActive then
      let st := { st with timerActive := false }
      if st.finalResults.isNone then settle st (.error "Execution timeout") else st
    else st
  | .wait r =>
    let st := { st with timerActive := false }
    match r with
    | .error e => settle st (.error e)
    | .ok code =>
      if code ≠ 0 then
        settle st (.error ("Container exited with code " ++ toString code))
      else
        match st.finalResults with
        | some fr => settle st (.ok fr)
        | none => settle st (.error "No test results received")
  | .streamError e =>
    let st := { st with timerActive := false }
    settle st (.error e)

/-- The state when the promise body starts: empty buffer, no
`finalResults`, the timer armed for `timeout` milliseconds, promise
pending. -/
def initExec (timeout : Nat) : ExecState :=
  { buffer := [], finalResults := none, timerActive := true,
    timerDelay := timeout, settled := none }

/-- Run the promise body over a list of events in arrival order. -/
def execEvents (parse : String → Option Json) (timeout : Nat)
    (evs : List Ev) : ExecState :=
  evs.foldl (step parse) (initExec timeout)

/-! ## `Runner.run`

The `try/finally` around the per-job pipeline (`runner.js:13-49`).  The
host-dependent stages are oracle results: `prep` for `prepareFiles`,
`dirRead` for the `readdir`/`readFile` loop, `compile` for `compileJava`,
`create` for `createContainer`, `exec` for `executeTests`, and `rmFails` for
whether `fs.rm` rejects.  The second component counts invocations of
`fs.rm(executionDir, ...)`. -/

/-- `Runner.run`: result and number of workspace removals performed. -/
def runnerRun (language : String)
    (prep : Except String Unit) (dirRead : Except String Unit)
    (compile : Except String Unit) (create : Except String Unit)
    (exec : Except String JobOutcome) (rmFails : Bool) :
    Except String JobOutcome × Nat :=
  match languageConfigs language with
  | none => (.error ("Unsupported language: " ++ language), 0)
  | some _ =>
    match prep with
    | .error e => (.error e, 0)
    | .ok _ =>
      let body : Except String JobOutcome :=
        match dirRead with
        | .error e => .error e
        | .ok _ =>
          if language = "java" then
            match compile with
            | .error e => .error e
            | .ok _ => match create with
              | .error e => .error e
              | .ok _ => exec
          else
            match create with
            | .error e => .error e
            | .ok _ => exec
      -- the `finally` block: `fs.rm(...).catch(...)` — invoked because
      -- `executionDir` was assigned; a rejection is swallowed.
      let _ := rmFails
      (body, 1)

/-! ## `Agent` (`agent.js`)

`getDockerStats` is host I/O; a run of `startTask` consumes its results from
the oracle `stats : Nat → Except String Stats` in call order (the function
itself rethrows any Docker error, `agent.js:66-69`).  Messages are recorded
in emission order; `sendMessage` stamps and sends only when the socket is
open, which the model assumes — the claims are about what is emitted. -/

/-- The value `getDockerStats` resolves with. -/
structure Stats where
  totalCpu : Rat
  totalMem : Nat
  usedCpu : Rat
  usedMem : Nat

/-- The outbound messages `startTask`/`handleMessage` can send, with the
fields the source puts in them. -/
inductive Msg where
  /-- `resourceUpdate` with `metrics.cpu/memory` totals and useds. -/
  | resourceUpdate (cpuTotal : Rat) (cpuUsed : Rat) (memTotal : Nat) (memUsed : Nat)
  /-- `taskComplete` with the task id, the runner's result forwarded as
  `result`, the post-job stats, and the echoed language profile. -/
  | taskComplete (taskId : String) (result : JobOutcome) (language : String)
      (resources : Stats) (lc : LangConfig)
  /-- `taskError` with the task id, `error.message`, the language and the
  stats sampled in the catch block. -/
  | taskError (taskId : String) (error : String) (language : String)
      (resources : Stats)
  /-- The generic `error` message `handleMessage` sends when anything thrown
  escapes `startTask`. -/
  | error (e : String)

/-- A received task (`message.task`). -/
structure Task where
  id : String
  language : String
  code : String
  testCases : Json

/-- The message of the TypeError Node raises for
`langConfig.cpuLimit` when `langConfig` is `undefined`
(`agent.js:155`, reached for a language absent from `languageConfigs`). -/
def cpuLimitTypeError : String :=
  "Cannot read properties of undefined (reading \x27cpuLimit\x27)"

/-- The `finally` block of `startTask` (`agent.js:218-234`): sample stats
once more and emit a `resourceUpdate`; a sampling error thrown here replaces
any pending exception.  Returns the messages, whether the runner was
invoked, and the exception leaving `startTask`, if any. -/
def startTaskFinally (msgs : List Msg) (invoked : Bool) (pending : Option String)
    (finStats : Except String Stats) : List Msg × Bool × Option String :=
  match finStats with
  | .error e => (msgs, invoked, some e)
  | .ok f =>
    (msgs ++ [Msg.resourceUpdate f.totalCpu f.usedCpu f.totalMem f.usedMem],
      invoked, pending)

/-- `Agent.startTask` (`agent.js:142-235`).  `stats n` is the result of the
`n`-th `getDockerStats()` call of this run; `runRes` the result of
`runner.run(task)`.  Output: messages emitted, whether `runner.run` was
invoked, and the exception propagating out of `startTask`, if any. -/
def startTask (task : Task) (stats : Nat → Except String Stats)
    (runRes : Except String JobOutcome) : List Msg × Bool × Option String :=
  match stats 0 with
  | .error e => ([], false, some e)      -- `preStats` rejection propagates
  | .ok pre =>
    match languageConfigs task.language with
    | none =>
      -- building the resourceUpdate message evaluates
      -- `langConfig.cpuLimit` on `undefined`: TypeError before the `try`,
      -- before `runner.run`, before any message is sent.
      ([], false, some cpuLimitTypeError)
    | some lc =>
      let m1 := Msg.resourceUpdate pre.totalCpu (pre.usedCpu + lc.cpuLimit)
        pre.totalMem (pre.usedMem + lc.memoryLimit)
      match runRes with
      | .ok result =>
        match stats 1 with
        | .ok post =>
          let m2 := Msg.taskComplete task.id result task.language post lc
          startTaskFinally [m1, m2] true none (stats 2)
        | .error e =>
          -- `postStats` threw: the `catch` block runs with `error = e`
          match stats 2 with
          | .ok errSt =>
            startTaskFinally [m1, Msg.taskError task.id e task.language errSt]
              true none (stats 3)
          | .error e2 => startTaskFinally [m1] true (some e2) (stats 3)
      | .error e =>
        match stats 1 with
        | .ok errSt =>
          startTaskFinally [m1, Msg.taskError task.id e task.language errSt]
            true none (stats 2)
        | .error e2 => startTaskFinally [m1] true (some e2) (stats 2)

/-- The `task` branch of `Agent.handleMessage` (`agent.js:125-140`):
anything thrown by `startTask` is caught and reported as a generic `error`
message.  Returns the messages emitted and whether `runner.run` was
invoked. -/
def handleTask (task : Task) (stats : Nat → Except String Stats)
    (runRes : Except String JobOutcome) : List Msg × Bool :=
  match startTask task stats runRes with
  | (msgs, invoked, none) => (msgs, invoked)
  | (msgs, invoked, some e) => (msgs ++ [Msg.error e], invoked)

/-- Is a message terminal (`taskComplete` or `taskError`) for task id
`tid`? -/
def isTerminalFor (tid : String) : Msg → Bool
  | .taskComplete taskId _ _ _ _ => taskId = tid
  | .taskError taskId _ _ _ => taskId = tid
  | _ => false

/-- Concatenation of the control-stripped chunks of a stream. -/
def stripJoin (chunks : List (List Char)) : List Char :=
  (chunks.map stripCtrl).flatten

/-! ## Properties of the line framing -/

theorem splitLF_ne_nil : ∀ l : List Char, splitLF l ≠ []
  | [] => by simp [splitLF]
  | c :: rest => by
    simp only [splitLF]
    split
    · simp
    · cases h : splitLF rest <;> simp [consHead]

theorem consHead_ne_nil (c : Char) (xs : List (List Char)) : consHead c xs ≠ [] := by
  cases xs <;> simp [consHead]

theorem prefixHead_ne_nil (p : List Char) (xs : List (List Char)) :
    prefixHead p xs ≠ [] := by
  cases xs <;> simp [prefixHead]

/-- No segment produced by `splitLF` contains a line feed. -/
theorem not_lf_of_mem_splitLF : ∀ (l : List Char), ∀ seg ∈ splitLF l, '\n' ∉ seg
  | [], seg, hm => by
    simp [splitLF] at hm
    simp [hm]
  | c :: rest, seg, hm => by
    simp only [splitLF] at hm
    by_cases h : c = '\n'
    · simp [h] at hm
      rcases hm with rfl | hm
      · simp
      · exact not_lf_of_mem_splitLF rest seg hm
    · simp [h] at hm
      cases hs : splitLF rest with
      | nil => exact absurd hs (splitLF_ne_nil rest)
      | cons x xs =>
        rw [hs] at hm
        simp [consHead] at hm
        rcases hm with rfl | hm
        · intro hc
          rcases List.mem_cons.mp hc with rfl | hc
          · exact h rfl
          · exact not_lf_of_mem_splitLF rest x (by simp [hs]) hc
        · exact not_lf_of_mem_splitLF rest seg (by simp [hs, hm])

/-- Splitting keeps all the text: rejoining with line feeds restores it. -/
theorem joinLF_splitLF : ∀ l : List Char, joinLF (splitLF l) = l
  | [] => by simp [splitLF, joinLF]
  | c :: rest => by
    simp only [splitLF]
    by_cases h : c = '\n'
    · subst h
      simp only [if_pos rfl]
      cases hs : splitLF rest with
      | nil => exact absurd hs (splitLF_ne_nil rest)
      | cons x xs =>
        have := joinLF_splitLF rest
        rw [hs] at this
        simp [joinLF, this]
    · rw [if_neg h]
      cases hs : splitLF rest with
      | nil => exact absurd hs (splitLF_ne_nil rest)
      | cons x xs =>
        have := joinLF_splitLF rest
        rw [hs] at this
        cases xs with
        | nil => simp [joinLF, consHead] at this ⊢; simp [this]
        | cons y ys => simp [joinLF, consHead] at this ⊢; simp [this]

/-- A text without a line feed is a single segment. -/
theorem splitLF_of_not_lf : ∀ l : List Char, '\n' ∉ l → splitLF l = [l]
  | [], _ => by simp [splitLF]
  | c :: rest, h => by
    have hc : c ≠ '\n' := fun hc => h (hc ▸ List.mem_cons_self c rest)
    have hrest : '\n' ∉ rest := fun hm => h (List.mem_cons_of_mem c hm)
    simp only [splitLF, if_neg hc, splitLF_of_not_lf rest hrest, consHead]

/-- How `splitLF` distributes over concatenation: the complete segments of
`a`, then the segments of `b` with `a`'s trailing segment glued onto the
first. -/
theorem splitLF_append : ∀ a b : List Char,
    splitLF (a ++ b) =
      (splitLF a).dropLast ++ prefixHead ((splitLF a).getLastD []) (splitLF b)
  | [], b => by
    simp only [List.nil_append, splitLF]
    cases hb : splitLF b with
    | nil => exact absurd hb (splitLF_ne_nil b)
    | cons x xs => simp [prefixHead]
  | c :: a, b => by
    simp only [List.cons_append, splitLF, List.append_eq]
    by_cases h : c = '\n'
    · subst h
      simp only [if_pos rfl]
      rw [splitLF_append a b]
      cases ha : splitLF a with
      | nil => exact absurd ha (splitLF_ne_nil a)
      | cons x xs => simp
    · simp only [if_neg h]
      rw [splitLF_append a b]
      cases ha : splitLF a with
      | nil => exact absurd ha (splitLF_ne_nil a)
      | cons x xs =>
        cases xs with
        | nil =>
          cases hb : splitLF b with
          | nil => exact absurd hb (splitLF_ne_nil b)
          | cons y ys => simp [consHead, prefixHead]
        | cons x2 xs2 =>
          simp [consHead, prefixHead]

/-- The trailing segment is exactly the text after the last line feed. -/
theorem getLastD_splitLF (l : List Char) : (splitLF l).getLastD [] = afterLastLF l := by
  induction l using List.reverseRecOn with
  | nil => simp [splitLF, afterLastLF]
  | append_singleton l c ih =>
    rw [splitLF_append l [c]]
    by_cases h : c = '\n'
    · subst h
      have h1 : splitLF ['\n'] = [[], []] := by simp [splitLF]
      rw [h1]
      show (((splitLF l).dropLast ++ [(splitLF l).getLastD [] ++ [], []]).getLastD []) = _
      rw [show (splitLF l).dropLast ++ [(splitLF l).getLastD [] ++ [], []] =
        ((splitLF l).dropLast ++ [(splitLF l).getLastD [] ++ []]) ++ [[]] by simp,
        List.getLastD_concat]
      simp [afterLastLF]
    · have h1 : splitLF [c] = [[c]] := by simp [splitLF, if_neg h, consHead]
      rw [h1]
      show (((splitLF l).dropLast ++ [(splitLF l).getLastD [] ++ [c]]).getLastD []) = _
      rw [List.getLastD_concat]
      rw [ih]
      simp [afterLastLF, List.takeWhile_cons, h]

/-- The last segment (with default) of a non-empty list is a member. -/
theorem getLastD_mem_of_ne_nil {α : Type} (l : List α) (d : α) (h : l ≠ []) :
    l.getLastD d ∈ l := by
  rw [List.getLastD_eq_getLast?, List.getLast?_eq_getLast l h]
  exact List.getLast_mem h

/-- `getLastD` looks only at a non-empty suffix. -/
theorem getLastD_append_of_ne_nil {α : Type} (u v : List α) (d : α) (h : v ≠ []) :
    (u ++ v).getLastD d = v.getLastD d := by
  rw [List.getLastD_eq_getLast?, List.getLastD_eq_getLast?, List.getLast?_append]
  cases hv : v.getLast? with
  | none => exact absurd (List.getLast?_eq_none_iff.mp hv) h
  | some x => rfl

/-- Gluing a line-feed-free prefix onto a text prefixes its first segment. -/
theorem splitLF_prefixHead (p b : List Char) (h : '\n' ∉ p) :
    splitLF (p ++ b) = prefixHead p (splitLF b) := by
  rw [splitLF_append p b, splitLF_of_not_lf p h]
  rfl

/-- What one `data` event does, spelled out: strip, buffer the trailing
segment, fold the complete lines. -/
theorem chunkStep_eq (parse : String → Option Json) (st : ExecState) (d : List Char) :
    chunkStep parse st d =
      { st with
        buffer := (splitLF (st.buffer ++ stripCtrl d)).getLastD []
        finalResults :=
          ((splitLF (st.buffer ++ stripCtrl d)).dropLast).foldl (lineStep parse)
            st.finalResults } := rfl

/-- Chunk-boundary invariance: feeding a stream chunk by chunk is feeding
the concatenation of the stripped chunks in one piece — complete lines are
produced exactly at line-feed boundaries, and the trailing partial text
stays in the buffer. -/
theorem foldl_chunkStep (parse : String → Option Json) :
    ∀ (chunks : List (List Char)) (st : ExecState), '\n' ∉ st.buffer →
    chunks.foldl (chunkStep parse) st =
      { st with
        buffer := (splitLF (st.buffer ++ stripJoin chunks)).getLastD []
        finalResults :=
          ((splitLF (st.buffer ++ stripJoin chunks)).dropLast).foldl (lineStep parse)
            st.finalResults }
  | [], st, h => by
    simp only [List.foldl_nil, stripJoin, List.map_nil, List.flatten_nil, List.append_nil]
    rw [splitLF_of_not_lf st.buffer h]
    simp
  | d :: chunks, st, h => by
    simp only [List.foldl_cons]
    have hbuf : '\n' ∉ (chunkStep parse st d).buffer := by
      rw [chunkStep_eq]
      exact not_lf_of_mem_splitLF _ _
        (getLastD_mem_of_ne_nil _ _ (splitLF_ne_nil _))
    rw [foldl_chunkStep parse chunks (chunkStep parse st d) hbuf]
    rw [chunkStep_eq]
    have hjoin : stripJoin (d :: chunks) = stripCtrl d ++ stripJoin chunks := by
      simp [stripJoin]
    set a := st.buffer ++ stripCtrl d with ha
    set p := (splitLF a).getLastD [] with hp
    have hpl : '\n' ∉ p := not_lf_of_mem_splitLF _ _
      (getLastD_mem_of_ne_nil _ _ (splitLF_ne_nil _))
    have hsplit : splitLF (a ++ stripJoin chunks) =
        (splitLF a).dropLast ++ prefixHead p (splitLF (stripJoin chunks)) :=
      splitLF_append a (stripJoin chunks)
    have hsplit2 : splitLF (p ++ stripJoin chunks) =
        prefixHead p (splitLF (stripJoin chunks)) :=
      splitLF_prefixHead p (stripJoin chunks) hpl
    have hne : prefixHead p (splitLF (stripJoin chunks)) ≠ [] :=
      prefixHead_ne_nil _ _
    simp only [hjoin]
    rw [← List.append_assoc, ← ha, hsplit, hsplit2]
    rw [getLastD_append_of_ne_nil _ _ _ hne]
    rw [List.dropLast_append_of_ne_nil _ hne, List.foldl_append]

/-! ## Promise-settling helpers -/

theorem settle_settled_of_isSome (st : ExecState) (r : Except String JobOutcome)
    (o : Except String JobOutcome) (h : st.settled = some o) :
    (settle st r).settled = some o := by
  simp [settle, h]

theorem settle_settled_of_none (st : ExecState) (r : Except String JobOutcome)
    (h : st.settled = none) : (settle st r).settled = some r := by
  simp [settle, h]

theorem settle_timerActive (st : ExecState) (r : Except String JobOutcome) :
    (settle st r).timerActive = st.timerActive := by
  unfold settle
  split <;> rfl

theorem settle_buffer (st : ExecState) (r : Except String JobOutcome) :
    (settle st r).buffer = st.buffer := by
  unfold settle
  split <;> rfl

theorem settle_finalResults (st : ExecState) (r : Except String JobOutcome) :
    (settle st r).finalResults = st.finalResults := by
  unfold settle
  split <;> rfl

/-- Once the promise is settled, no later event changes the outcome. -/
theorem step_settled_of_isSome (parse : String → Option Json) (st : ExecState)
    (e : Ev) (o : Except String JobOutcome) (h : st.settled = some o) :
    (step parse st e).settled = some o := by
  cases e with
  | chunk d => exact h
  | timerFire =>
    simp only [step]
    split
    · split
      · exact settle_settled_of_isSome _ _ _ h
      · exact h
    · exact h
  | wait r =>
    simp only [step]
    cases r with
    | error e => exact settle_settled_of_isSome _ _ _ h
    | ok code =>
      by_cases hc : code = 0
      · subst hc
        simp only [ne_eq, not_true_eq_false, if_neg, ite_false]
        cases hf : st.finalResults <;> simp only [hf] <;>
          exact settle_settled_of_isSome _ _ _ h
      · simp only [hc, ne_eq, not_false_eq_true, if_true]
        exact settle_settled_of_isSome _ _ _ h
  | streamError e => exact settle_settled_of_isSome _ _ _ h

/-! ## Claims C4, C5, C6 -/

/-- Claim C4: for every run-container execution a single-shot timer armed
with `profile.timeoutMillis` exists from the start; when it fires while no
`final_result` has been parsed and the promise is still pending, execution
fails with the execution-timeout error; processing the container-exit
callback cancels the timer, after which a timer event is a strict no-op;
and whichever of timer-fire and container-exit loses the race leaves the
already-determined outcome untouched. -/
theorem timer_exit_race (parse : String → Option Json) (st : ExecState)
    (e : Ev) (r : Except String Nat) (t : Nat) :
    ((initExec t).timerActive = true ∧ (initExec t).timerDelay = t) ∧
    (st.timerActive = true → st.finalResults = none → st.settled = none →
      (step parse st .timerFire).settled = some (.error "Execution timeout")) ∧
    ((step parse st (.wait r)).timerActive = false) ∧
    (st.timerActive = false → step parse st .timerFire = st) ∧
    (∀ o, st.settled = some o → (step parse st e).settled = some o) := by
  refine ⟨⟨rfl, rfl⟩, ?_, ?_, ?_, ?_⟩
  · intro ha hf hs
    simp only [step, ha, if_true]
    rw [if_pos (by simp [hf])]
    exact settle_settled_of_none _ _ hs
  · simp only [step]
    cases r with
    | error e => simp [settle_timerActive]
    | ok code =>
      by_cases hc : code = 0
      · subst hc
        simp only [ne_eq, not_true_eq_false, if_neg, ite_false]
        cases hf : st.finalResults <;> simp [settle_timerActive]
      · simp [hc, settle_timerActive]
  · intro ha
    simp [step, ha]
  · intro o h
    exact step_settled_of_isSome parse st e o h

/-- Instance of the race claim at concrete states: the timer firing on the
fresh python-timeout state produces the timeout error, and the exit
callback cancels the timer. -/
theorem timer_exit_race_instance :
    (step jsonParse (initExec 8000) Ev.timerFire).settled =
      some (Except.error "Execution timeout") ∧
    (step jsonParse (initExec 8000) (Ev.wait (Except.ok 0))).timerActive = false := by
  refine ⟨?_, ?_⟩
  · exact (timer_exit_race jsonParse (initExec 8000) Ev.timerFire (Except.ok 0) 8000).2.1
      rfl rfl rfl
  · exact (timer_exit_race jsonParse (initExec 8000) Ev.timerFire (Except.ok 0) 8000).2.2.1

/-- Claim C5: the `container.wait` callback, when the promise is still
pending: a non-zero exit code rejects with the container-exit error
carrying the code; exit code zero with a parsed `final_result` resolves to
the built outcome; exit code zero without one rejects with the no-result
error. -/
theorem wait_exit_outcome (parse : String → Option Json) (st : ExecState)
    (hs : st.settled = none) :
    (∀ code : Nat, code ≠ 0 →
      (step parse st (.wait (.ok code))).settled =
        some (.error ("Container exited with code " ++ toString code))) ∧
    (∀ fr, st.finalResults = some fr →
      (step parse st (.wait (.ok 0))).settled = some (.ok fr)) ∧
    (st.finalResults = none →
      (step parse st (.wait (.ok 0))).settled =
        some (.error "No test results received")) := by
  refine ⟨?_, ?_, ?_⟩
  · intro code hc
    simp only [step, hc, ne_eq, not_false_eq_true, if_true]
    exact settle_settled_of_none _ _ hs
  · intro fr hf
    simp only [step, ne_eq, not_true_eq_false, if_neg, ite_false, hf]
    exact settle_settled_of_none _ _ hs
  · intro hf
    simp only [step, ne_eq, not_true_eq_false, if_neg, ite_false, hf]
    exact settle_settled_of_none _ _ hs

/-- Instance of the wait-callback claim: exit code 137 rejects with the
carried code; exit 0 with a recorded outcome resolves it; exit 0 on the
fresh state rejects with the no-result error. -/
theorem wait_exit_outcome_instance :
    (step jsonParse (initExec 8000) (Ev.wait (Except.ok 137))).settled =
      some (Except.error "Container exited with code 137") ∧
    (step jsonParse
        { initExec 8000 with
          finalResults := some (mkOutcome (Json.obj .nil)) }
        (Ev.wait (Except.ok 0))).settled =
      some (Except.ok (mkOutcome (Json.obj .nil))) ∧
    (step jsonParse (initExec 8000) (Ev.wait (Except.ok 0))).settled =
      some (Except.error "No test results received") := by
  refine ⟨?_, ?_, ?_⟩
  · exact (wait_exit_outcome jsonParse (initExec 8000) rfl).1 137 (by decide)
  · exact (wait_exit_outcome jsonParse
      { initExec 8000 with finalResults := some (mkOutcome (Json.obj .nil)) } rfl).2.1
      (mkOutcome (Json.obj .nil)) rfl
  · exact (wait_exit_outcome jsonParse (initExec 8000) rfl).2.2 rfl

/-- Claim C6: once `prepareFiles` has returned successfully, the recursive
removal of the workspace directory is invoked exactly once before `run`
returns, on every exit path — success, directory-listing failure, compile
failure, container-creation failure, and any error out of `executeTests` —
and a failing removal never changes what `run` returns or throws. -/
theorem workspace_removed_once (language : String) (lc : LangConfig)
    (hlc : languageConfigs language = some lc)
    (dirRead compile create : Except String Unit)
    (exec : Except String JobOutcome) (rmFails : Bool) :
    (runnerRun language (.ok ()) dirRead compile create exec rmFails).2 = 1 ∧
    (runnerRun language (.ok ()) dirRead compile create exec rmFails).1 =
      (runnerRun language (.ok ()) dirRead compile create exec false).1 := by
  unfold runnerRun
  rw [hlc]
  exact ⟨rfl, rfl⟩

/-- Instance of the cleanup claim: a java run whose compile step fails, with
a failing removal, still removes the workspace exactly once and returns the
compile error. -/
theorem workspace_removed_once_instance :
    (runnerRun "java" (.ok ()) (.ok ()) (.error "Compilation failed: x")
      (.ok ()) (.error "unused") true).2 = 1 ∧
    (runnerRun "java" (.ok ()) (.ok ()) (.error "Compilation failed: x")
      (.ok ()) (.error "unused") true).1 =
    (runnerRun "java" (.ok ()) (.ok ()) (.error "Compilation failed: x")
      (.ok ()) (.error "unused") false).1 :=
  workspace_removed_once "java" _ rfl (.ok ()) (.error "Compilation failed: x")
    (.ok ()) (.error "unused") true

/-! ## Claims C1, C2, C3 -/

/-- Claim C1 (code evaluated at the failing input): for a task whose
language tag is not in the registry (`"ruby"`), `startTask` dereferences
`langConfig.cpuLimit` on `undefined` before its `try` block, so the agent
emits only the generic `error` message with the TypeError text — not a
`taskError` reading `Unsupported language: ruby` — and never invokes
`runner.run`; the runner's own unsupported-language check, which would
produce that text before any filesystem work, is unreachable from the
agent. -/
theorem unsupported_language_typeerror :
    handleTask ⟨"t1", "ruby", "def f: pass", Json.null⟩
      (fun _ => .ok ⟨4, 7851, 0, 100⟩) (.error "Unsupported language: ruby") =
      ([Msg.error cpuLimitTypeError], false) ∧
    (([Msg.error cpuLimitTypeError].all (fun m => !(isTerminalFor "t1" m))) = true) ∧
    runnerRun "ruby" (.ok ()) (.ok ()) (.ok ()) (.ok ()) (.error "unused") false =
      (.error "Unsupported language: ruby", 0) := by
  refine ⟨rfl, rfl, rfl⟩

/-- Claim C2 counterexample: with a task for a supported language and a
telemetry probe that fails, the job is *not* executed (the runner is never
invoked) and no terminal `taskComplete`/`taskError` for the task is
emitted — only the generic `error` message — contradicting the claim that
only the telemetry publication is skipped. -/
theorem telemetry_failure_not_skipped_cex :
    handleTask ⟨"t1", "python", "def solution(a, b): return a + b", Json.null⟩
      (fun _ => .error "stats boom")
      (.ok ⟨true, none, none, none, none, none⟩) =
      ([Msg.error "stats boom"], false) ∧
    (([Msg.error "stats boom"].all (fun m => !(isTerminalFor "t1" m))) = true) := by
  refine ⟨rfl, rfl⟩

/-- Claim C2 as amended: a telemetry-sampling failure around a job is not
downgraded to a skipped publication — it propagates.  A failing pre-job
sample aborts `startTask` before the runner is invoked, and the agent emits
only the generic `error` message; a failing sample after a successful run is
caught by the job's error handler, which reports the successful job as
`taskError` carrying the sampling error text. -/
theorem telemetry_failure_propagates (task : Task)
    (stats : Nat → Except String Stats) (runRes : Except String JobOutcome)
    (e : String) (pre errSt f : Stats) (o : JobOutcome) (lc : LangConfig) :
    (stats 0 = .error e → handleTask task stats runRes = ([Msg.error e], false)) ∧
    (languageConfigs task.language = some lc → stats 0 = .ok pre →
      stats 1 = .error e → stats 2 = .ok errSt → stats 3 = .ok f →
      handleTask task stats (.ok o) =
        ([Msg.resourceUpdate pre.totalCpu (pre.usedCpu + lc.cpuLimit)
            pre.totalMem (pre.usedMem + lc.memoryLimit),
          Msg.taskError task.id e task.language errSt,
          Msg.resourceUpdate f.totalCpu f.usedCpu f.totalMem f.usedMem], true)) := by
  constructor
  · intro h0
    simp [handleTask, startTask, h0]
  · intro hlc h0 h1 h2 h3
    simp [handleTask, startTask, h0, hlc, h1, h2, h3, startTaskFinally]

/-- Instance of the amended telemetry claim at concrete inputs: both the
pre-job-sample failure path and the post-success-sample failure path. -/
theorem telemetry_failure_propagates_instance :
    handleTask ⟨"t1", "python", "c", Json.null⟩ (fun _ => .error "boom")
      (.ok ⟨true, none, none, none, none, none⟩) = ([Msg.error "boom"], false) ∧
    handleTask ⟨"t2", "python", "c", Json.null⟩
      (fun n => if n = 1 then .error "boom" else .ok ⟨4, 7851, 0, 100⟩)
      (.ok ⟨true, none, none, none, none, none⟩) =
      ([Msg.resourceUpdate 4 (0 + (3 : Rat) / 10) 7851 (100 + 128),
        Msg.taskError "t2" "boom" "python" ⟨4, 7851, 0, 100⟩,
        Msg.resourceUpdate 4 0 7851 100], true) := by
  constructor
  · exact (telemetry_failure_propagates ⟨"t1", "python", "c", Json.null⟩
      (fun _ => .error "boom") (.ok ⟨true, none, none, none, none, none⟩)
      "boom" ⟨4, 7851, 0, 100⟩ ⟨4, 7851, 0, 100⟩ ⟨4, 7851, 0, 100⟩
      ⟨true, none, none, none, none, none⟩
      { memoryLimit := 128, cpuLimit := 3 / 10, timeout := 8000,
        image := "python:3.13.1-alpine", fileExtension := ".py",
        runCommand := ["python"], compileCommand := none }).1 rfl
  · exact (telemetry_failure_propagates ⟨"t2", "python", "c", Json.null⟩
      (fun n => if n = 1 then .error "boom" else .ok ⟨4, 7851, 0, 100⟩)
      (.ok ⟨true, none, none, none, none, none⟩)
      "boom" ⟨4, 7851, 0, 100⟩ ⟨4, 7851, 0, 100⟩ ⟨4, 7851, 0, 100⟩
      ⟨true, none, none, none, none, none⟩
      { memoryLimit := 128, cpuLimit := 3 / 10, timeout := 8000,
        image := "python:3.13.1-alpine", fileExtension := ".py",
        runCommand := ["python"], compileCommand := none }).2 rfl rfl rfl rfl rfl

/-- Claim C3 (code evaluated at the failing input): the test-file
substitution is `String.prototype.replace`, which processes `$` escapes in
the replacement, so for `job.testCases` whose JSON serialisation contains
`$&` the written test file is *not* the template with the serialisation
spliced in verbatim: for every template containing the token, the `$&` in
the payload is expanded to the matched token text.  The solution file, by
contrast, is the code verbatim.  (`u`/`v`: the template around its first
token occurrence; `pre`/`post` arbitrary contexts for the substitution.) -/
theorem testfile_dollar_corruption (u v pre post : List Char)
    (h : findSub (u ++ testCasesToken ++ v) testCasesToken = some u.length) :
    (getSubstitution testCasesToken pre post
        (jsonStringify (Json.arr (.cons (.obj (.cons "input" (.str "$&")
          (.cons "expected" (.num 1) .nil))) .nil))) =
      "[\x7b\"input\":\"".data ++ testCasesToken ++ "\",\"expected\":1\x7d]".data) ∧
    (getSubstitution testCasesToken pre post
        (jsonStringify (Json.arr (.cons (.obj (.cons "input" (.str "$&")
          (.cons "expected" (.num 1) .nil))) .nil))) ≠
      jsonStringify (Json.arr (.cons (.obj (.cons "input" (.str "$&")
        (.cons "expected" (.num 1) .nil))) .nil))) ∧
    (jsReplaceFirst (u ++ testCasesToken ++ v) testCasesToken
        (jsonStringify (Json.arr (.cons (.obj (.cons "input" (.str "$&")
          (.cons "expected" (.num 1) .nil))) .nil))) ≠
      u ++ jsonStringify (Json.arr (.cons (.obj (.cons "input" (.str "$&")
        (.cons "expected" (.num 1) .nil))) .nil)) ++ v) ∧
    (∀ tc : Json, testFileContent "python" tc =
      some (String.mk (jsReplaceFirst pythonTemplate.data testCasesToken
        (jsonStringify tc)))) ∧
    (∀ code : String, solutionFileContent code = code) := by
  have hsub : ∀ pre post : List Char, getSubstitution testCasesToken pre post
      (jsonStringify (Json.arr (.cons (.obj (.cons "input" (.str "$&")
        (.cons "expected" (.num 1) .nil))) .nil))) =
      "[\x7b\"input\":\"".data ++ testCasesToken ++ "\",\"expected\":1\x7d]".data :=
    fun _ _ => rfl
  have hne : ("[\x7b\"input\":\"".data ++ testCasesToken ++
        "\",\"expected\":1\x7d]".data : List Char) ≠
      jsonStringify (Json.arr (.cons (.obj (.cons "input" (.str "$&")
        (.cons "expected" (.num 1) .nil))) .nil)) := by decide
  have hrepl : jsReplaceFirst (u ++ testCasesToken ++ v) testCasesToken
      (jsonStringify (Json.arr (.cons (.obj (.cons "input" (.str "$&")
        (.cons "expected" (.num 1) .nil))) .nil))) =
      u ++ ("[\x7b\"input\":\"".data ++ testCasesToken ++
        "\",\"expected\":1\x7d]".data) ++ v := by
    unfold jsReplaceFirst
    rw [h]
    have ht : (u ++ testCasesToken ++ v).take u.length = u := by
      rw [List.append_assoc, List.take_left]
    have hd : (u ++ testCasesToken ++ v).drop (u.length + testCasesToken.length) = v := by
      rw [← List.length_append, List.drop_left]
    simp only [ht, hd, hsub]
  refine ⟨hsub pre post, (hsub pre post) ▸ hne, ?_, fun _ => rfl, fun _ => rfl⟩
  rw [hrepl]
  intro hcontra
  exact hne (List.append_cancel_left (List.append_cancel_right hcontra))

/-- Instance of the substitution-corruption claim with the token as the
whole template. -/
theorem testfile_dollar_corruption_instance :
    jsReplaceFirst testCasesToken testCasesToken
        (jsonStringify (Json.arr (.cons (.obj (.cons "input" (.str "$&")
          (.cons "expected" (.num 1) .nil))) .nil))) ≠
      jsonStringify (Json.arr (.cons (.obj (.cons "input" (.str "$&")
        (.cons "expected" (.num 1) .nil))) .nil)) := by
  have h := (testfile_dollar_corruption [] [] [] [] (by decide)).2.2.1
  simpa using h

/-! ## Claim C7 -/

/-- Claim C7: the chunk handler strips exactly the control characters
U+0000–U+0008, U+000B–U+000C and U+000E–U+001F (preserving tab, line feed
and carriage return), appends to the buffer and splits on LF keeping the
trailing partial line (nothing is lost: rejoining with LF restores the
text); each complete line is trimmed, skipped when empty, stripped of any
prefix before the first brace and JSON-decoded, a decode failure leaving the
state unchanged; chunk processing never settles the promise or touches the
timer; and a chunk of nothing but control characters is a complete no-op. -/
theorem chunk_parser_discipline (parse : String → Option Json) (st : ExecState)
    (d : List Char) :
    (∀ c : Char, (c.toNat = 0x9 ∨ c.toNat = 0xA ∨ c.toNat = 0xD) →
      isStrippedCtrl c = false) ∧
    (∀ c : Char, isStrippedCtrl c = true ↔
      (c.toNat ≤ 0x8 ∨ (0xB ≤ c.toNat ∧ c.toNat ≤ 0xC) ∨
        (0xE ≤ c.toNat ∧ c.toNat ≤ 0x1F))) ∧
    ((chunkStep parse st d).buffer = afterLastLF (st.buffer ++ stripCtrl d) ∧
      '\n' ∉ (chunkStep parse st d).buffer ∧
      joinLF (splitLF (st.buffer ++ stripCtrl d)) = st.buffer ++ stripCtrl d) ∧
    (∀ (fr : Option JobOutcome) (line : List Char),
      (jsTrim line = [] → lineStep parse fr line = fr) ∧
      (parse (String.mk (dropToBrace (jsTrim line))) = none →
        lineStep parse fr line = fr)) ∧
    ((chunkStep parse st d).settled = st.settled ∧
      (chunkStep parse st d).timerActive = st.timerActive) ∧
    ((∀ c ∈ d, isStrippedCtrl c = true) → '\n' ∉ st.buffer →
      chunkStep parse st d = st) := by
  refine ⟨?_, ?_, ⟨?_, ?_, ?_⟩, ?_, ⟨rfl, rfl⟩, ?_⟩
  · intro c h
    rcases h with h | h | h <;> simp [isStrippedCtrl, h]
  · intro c
    simp only [isStrippedCtrl, Bool.or_eq_true, decide_eq_true_eq,
      Bool.and_eq_true]
    omega
  · rw [chunkStep_eq]
    exact getLastD_splitLF _
  · rw [chunkStep_eq]
    exact not_lf_of_mem_splitLF _ _ (getLastD_mem_of_ne_nil _ _ (splitLF_ne_nil _))
  · exact joinLF_splitLF _
  · intro fr line
    constructor
    · intro h
      simp [lineStep, h]
    · intro h
      by_cases ht : jsTrim line = []
      · simp [lineStep, ht]
      · simp [lineStep, ht, h]
  · intro hall hb
    have hs : stripCtrl d = [] := by
      rw [stripCtrl, List.filter_eq_nil_iff]
      intro c hc
      simp [hall c hc]
    rw [chunkStep_eq, hs, List.append_nil, splitLF_of_not_lf st.buffer hb]
    cases st
    rfl

/-- Instance of the chunk-parser claim: a chunk of two control bytes on the
fresh state is a no-op, the all-blank line and an undecodable line are
skipped, and the tab survives stripping. -/
theorem chunk_parser_discipline_instance :
    chunkStep jsonParse (initExec 8000) [Char.ofNat 1, Char.ofNat 2] =
      initExec 8000 ∧
    lineStep jsonParse none "   ".data = none ∧
    lineStep jsonParse none "garbage without json".data = none ∧
    isStrippedCtrl '\t' = false := by
  refine ⟨?_, ?_, ?_, ?_⟩
  · exact (chunk_parser_discipline jsonParse (initExec 8000)
      [Char.ofNat 1, Char.ofNat 2]).2.2.2.2.2 (by decide) (by simp [initExec])
  · exact ((chunk_parser_discipline jsonParse (initExec 8000) []).2.2.2.1
      none "   ".data).1 rfl
  · exact ((chunk_parser_discipline jsonParse (initExec 8000) []).2.2.2.1
      none "garbage without json".data).2 rfl
  · exact (chunk_parser_discipline jsonParse (initExec 8000) []).1 '\t' (Or.inl rfl)

/-! ## Claims C8, C9, C10 -/

/-- Appending one event steps the final state once. -/
theorem execEvents_append_one (parse : String → Option Json) (t : Nat)
    (evs : List Ev) (e : Ev) :
    execEvents parse t (evs ++ [e]) = step parse (execEvents parse t evs) e := by
  simp [execEvents, List.foldl_append]

/-- A fold whose function fixes every list element fixes the seed. -/
theorem foldl_fix {α β : Type} (f : α → β → α) :
    ∀ (L : List β) (a : α), (∀ x b, b ∈ L → f x b = x) → L.foldl f a = a
  | [], _, _ => rfl
  | b :: L, a, h => by
    rw [List.foldl_cons, h a b (List.mem_cons_self b L)]
    exact foldl_fix f L a (fun x c hc => h x c (List.mem_cons_of_mem b hc))

/-- What settling can have produced. -/
theorem settle_settled_cases (st : ExecState) (r x : Except String JobOutcome)
    (h : (settle st r).settled = some x) :
    st.settled = some x ∨ (st.settled = none ∧ x = r) := by
  unfold settle at h
  by_cases hs : st.settled.isSome
  · rw [if_pos hs] at h
    exact Or.inl h
  · rw [if_neg hs] at h
    simp only at h
    injection h with h
    exact Or.inr ⟨Option.not_isSome_iff_eq_none.mp hs, h.symm⟩

/-- A decoded event leaves `finalResults` unchanged or records an outcome
built by `mkOutcome`. -/
theorem applyDecoded_shape (fr : Option JobOutcome) (j : Json) :
    applyDecoded fr j = fr ∨ ∃ d, applyDecoded fr j = some (mkOutcome d) := by
  unfold applyDecoded
  repeat' split
  all_goals first | (left; rfl) | (right; exact ⟨_, rfl⟩)

/-- One complete line leaves `finalResults` unchanged or records an outcome
built by `mkOutcome`. -/
theorem lineStep_shape (parse : String → Option Json) (fr : Option JobOutcome)
    (l : List Char) :
    lineStep parse fr l = fr ∨
      ∃ d, lineStep parse fr l = some (mkOutcome d) := by
  by_cases ht : jsTrim l = []
  · left
    simp [lineStep, ht]
  · cases hp : parse (String.mk (dropToBrace (jsTrim l))) with
    | none => left; simp [lineStep, ht, hp]
    | some j =>
      have hl : lineStep parse fr l = applyDecoded fr j := by
        simp [lineStep, ht, hp]
      rw [hl]
      exact applyDecoded_shape fr j

/-- The executeTests invariant: any recorded `finalResults`, and any
outcome the promise resolves with, was built by `mkOutcome`. -/
def OutcomeInv (st : ExecState) : Prop :=
  (∀ o, st.finalResults = some o → ∃ d, o = mkOutcome d) ∧
  (∀ o, st.settled = some (.ok o) → ∃ d, o = mkOutcome d)

theorem outcomeInv_lineFold (parse : String → Option Json) :
    ∀ (lines : List (List Char)) (fr : Option JobOutcome),
    (∀ o, fr = some o → ∃ d, o = mkOutcome d) →
    (∀ o, lines.foldl (lineStep parse) fr = some o → ∃ d, o = mkOutcome d)
  | [], fr, h => h
  | l :: lines, fr, h => by
    rw [List.foldl_cons]
    refine outcomeInv_lineFold parse lines (lineStep parse fr l) ?_
    rcases lineStep_shape parse fr l with hs | ⟨d, hs⟩
    · rw [hs]; exact h
    · rw [hs]
      intro o ho
      injection ho with ho
      exact ⟨d, ho.symm⟩

/-- Settling with an error preserves the outcome invariant. -/
theorem outcomeInv_settle_error (st : ExecState) (e : String)
    (h : OutcomeInv st) : OutcomeInv (settle st (.error e)) := by
  refine ⟨?_, ?_⟩
  · intro o ho
    rw [settle_finalResults] at ho
    exact h.1 o ho
  · intro o ho
    rcases settle_settled_cases _ _ _ ho with hx | ⟨_, hx⟩
    · exact h.2 o hx
    · exact absurd hx (by simp)

/-- Resolving with an outcome built by `mkOutcome` preserves the
invariant. -/
theorem outcomeInv_settle_ok (st : ExecState) (o0 : JobOutcome)
    (hmk : ∃ d, o0 = mkOutcome d) (h : OutcomeInv st) :
    OutcomeInv (settle st (.ok o0)) := by
  refine ⟨?_, ?_⟩
  · intro o ho
    rw [settle_finalResults] at ho
    exact h.1 o ho
  · intro o ho
    rcases settle_settled_cases _ _ _ ho with hx | ⟨_, hx⟩
    · exact h.2 o hx
    · injection hx with hx
      exact hx ▸ hmk

theorem outcomeInv_step (parse : String → Option Json) (st : ExecState) (e : Ev)
    (h : OutcomeInv st) : OutcomeInv (step parse st e) := by
  obtain ⟨hfr, hok⟩ := h
  cases e with
  | chunk d =>
    show OutcomeInv (chunkStep parse st d)
    rw [chunkStep_eq]
    exact ⟨outcomeInv_lineFold parse _ _ hfr, hok⟩
  | timerFire =>
    simp only [step]
    by_cases ha : st.timerActive
    · rw [if_pos ha]
      by_cases hn : ({ st with timerActive := false } : ExecState).finalResults.isNone
      · rw [if_pos hn]
        exact outcomeInv_settle_error _ _ ⟨hfr, hok⟩
      · rw [if_neg hn]
        exact ⟨hfr, hok⟩
    · rw [if_neg ha]
      exact ⟨hfr, hok⟩
  | wait r =>
    simp only [step]
    cases r with
    | error e => exact outcomeInv_settle_error _ _ ⟨hfr, hok⟩
    | ok code =>
      by_cases hc : code = 0
      · subst hc
        simp only [ne_eq, not_true_eq_false, if_neg, ite_false]
        cases hf : st.finalResults with
        | none =>
          simp only [hf]
          refine outcomeInv_settle_error _ _ ⟨?_, hok⟩
          intro o ho
          exact Option.noConfusion ho
        | some fr0 =>
          simp only [hf]
          refine outcomeInv_settle_ok _ _ (hfr fr0 hf) ⟨?_, hok⟩
          intro o ho
          exact (Option.some.inj ho) ▸ hfr fr0 hf
      · simp only [hc, ne_eq, not_false_eq_true, if_true]
        exact outcomeInv_settle_error _ _ ⟨hfr, hok⟩
  | streamError e => exact outcomeInv_settle_error _ _ ⟨hfr, hok⟩

theorem outcomeInv_foldl (parse : String → Option Json) :
    ∀ (evs : List Ev) (st : ExecState), OutcomeInv st →
      OutcomeInv (evs.foldl (step parse) st)
  | [], _, h => h
  | e :: evs, st, h =>
    outcomeInv_foldl parse evs (step parse st e) (outcomeInv_step parse st e h)

theorem outcomeInv_execEvents (parse : String → Option Json) (t : Nat)
    (evs : List Ev) : OutcomeInv (execEvents parse t evs) := by
  have hinit : OutcomeInv (initExec t) := by
    constructor <;> intro o ho <;> exact absurd ho (by simp [initExec])
  rw [execEvents]
  exact outcomeInv_foldl parse evs (initExec t) hinit

/-- Claim C8: a decoded `final_result` event records its `data` as the
outcome — unconditionally overwriting whatever was recorded before — while a
decoded `test_result` event changes nothing; consequently a stream whose
`final_result` arrives before later `test_result` lines still resolves, on
exit code zero, to the outcome built from that `final_result`. -/
theorem final_result_authoritative (parse : String → Option Json)
    (fr : Option JobOutcome) (fs : JsonFields) (d : Json) (t : Nat)
    (evs : List Ev) (o : JobOutcome) :
    (fs.lookup "type" = some (.str "final_result") →
      fs.lookup "data" = some d → d ≠ .null →
      applyDecoded fr (.obj fs) = some (mkOutcome d)) ∧
    (fs.lookup "type" = some (.str "test_result") →
      applyDecoded fr (.obj fs) = fr) ∧
    ((execEvents parse t evs).finalResults = some o →
      (execEvents parse t evs).settled = none →
      (execEvents parse t (evs ++ [.wait (.ok 0)])).settled = some (.ok o)) := by
  refine ⟨?_, ?_, ?_⟩
  · intro hty hd hnull
    have h1 : applyDecoded fr (Json.obj fs) =
        (match fs.lookup "data" with
         | none => fr
         | some .null => fr
         | some d => some (mkOutcome d)) := by
      show (match fs.lookup "type" with
        | some (.str t) =>
          if t = "final_result" then
            match fs.lookup "data" with
            | none => fr
            | some .null => fr
            | some d => some (mkOutcome d)
          else fr
        | _ => fr) =
        (match fs.lookup "data" with
         | none => fr
         | some .null => fr
         | some d => some (mkOutcome d))
      rw [hty]
      rfl
    rw [h1, hd]
    cases d <;> first | exact absurd rfl hnull | rfl
  · intro hty
    show (match fs.lookup "type" with
      | some (.str t) =>
        if t = "final_result" then
          match fs.lookup "data" with
          | none => fr
          | some .null => fr
          | some d => some (mkOutcome d)
        else fr
      | _ => fr) = fr
    rw [hty]
    rfl
  · intro hf hs
    rw [execEvents_append_one]
    simp only [step, ne_eq, not_true_eq_false, if_neg, ite_false, hf]
    exact settle_settled_of_none _ _ hs

set_option maxRecDepth 40000 in
/-- Instance of the final-result-authoritative claim: a concrete stream in
which the `final_result` line precedes a `test_result` line still resolves
to the final result's outcome on exit code zero. -/
theorem final_result_authoritative_instance :
    (execEvents jsonParse 8000
        ([Ev.chunk ("\x7b\"type\":\"final_result\",\"data\":\x7b\"total\":1,\"passed\":1,\"failed\":0,\"cases\":[],\"execution_time\":3\x7d\x7d\n\x7b\"type\":\"test_result\",\"data\":\x7b\"id\":1,\"status\":\"passed\"\x7d\x7d\n".data)] ++
          [Ev.wait (.ok 0)])).settled =
      some (.ok (mkOutcome (Json.obj (.cons "total" (.num 1)
        (.cons "passed" (.num 1) (.cons "failed" (.num 0)
          (.cons "cases" (.arr .nil)
            (.cons "execution_time" (.num 3) .nil)))))))) :=
  (final_result_authoritative jsonParse none .nil Json.null 8000
    [Ev.chunk ("\x7b\"type\":\"final_result\",\"data\":\x7b\"total\":1,\"passed\":1,\"failed\":0,\"cases\":[],\"execution_time\":3\x7d\x7d\n\x7b\"type\":\"test_result\",\"data\":\x7b\"id\":1,\"status\":\"passed\"\x7d\x7d\n".data)]
    (mkOutcome (Json.obj (.cons "total" (.num 1)
      (.cons "passed" (.num 1) (.cons "failed" (.num 0)
        (.cons "cases" (.arr .nil)
          (.cons "execution_time" (.num 3) .nil)))))))).2.2 rfl rfl

/-- `success` as built by `mkOutcome` is exactly the test
`failed === 0` on the recorded `failed` field. -/
theorem mkOutcome_success_iff (d : Json) :
    (mkOutcome d).success = true ↔ (mkOutcome d).failed = some (.num 0) := by
  show (match d.get "failed" with
    | some (.num 0) => true
    | _ => false) = true ↔ d.get "failed" = some (.num 0)
  constructor
  · intro h
    split at h
    · assumption
    · exact absurd h (by simp)
  · intro h
    rw [h]
    rfl

/-- Claim C9: every outcome the run promise resolves with — and hence the
`result` the agent forwards unchanged inside `taskComplete` — satisfies
`success = (failed == 0)`, its fields being those of the `final_result`
data. -/
theorem taskComplete_success_iff (parse : String → Option Json) (t : Nat)
    (evs : List Ev) (o : JobOutcome) (task : Task)
    (stats : Nat → Except String Stats) (pre post f : Stats) (lc : LangConfig) :
    (∀ d, (mkOutcome d).success = true ↔ (mkOutcome d).failed = some (.num 0)) ∧
    ((execEvents parse t evs).settled = some (.ok o) →
      (o.success = true ↔ o.failed = some (.num 0))) ∧
    (languageConfigs task.language = some lc → stats 0 = .ok pre →
      stats 1 = .ok post → stats 2 = .ok f →
      startTask task stats (.ok o) =
        ([Msg.resourceUpdate pre.totalCpu (pre.usedCpu + lc.cpuLimit)
            pre.totalMem (pre.usedMem + lc.memoryLimit),
          Msg.taskComplete task.id o task.language post lc,
          Msg.resourceUpdate f.totalCpu f.usedCpu f.totalMem f.usedMem],
          true, none)) := by
  refine ⟨mkOutcome_success_iff, ?_, ?_⟩
  · intro h
    obtain ⟨d, rfl⟩ := (outcomeInv_execEvents parse t evs).2 o h
    exact mkOutcome_success_iff d
  · intro hlc h0 h1 h2
    simp [startTask, hlc, h0, h1, h2, startTaskFinally]

set_option maxRecDepth 40000 in
/-- Instance of the success-iff claim: a concrete zero-failure stream
resolves to an outcome with `success = true` and `failed = 0`, and the
agent forwards it verbatim in `taskComplete`. -/
theorem taskComplete_success_iff_instance :
    ((mkOutcome (Json.obj (.cons "failed" (.num 0) .nil))).success = true ↔
      (mkOutcome (Json.obj (.cons "failed" (.num 0) .nil))).failed =
        some (.num 0)) ∧
    ((mkOutcome (Json.obj (.cons "total" (.num 2) (.cons "passed" (.num 2)
        (.cons "failed" (.num 0) (.cons "cases" (.arr .nil)
          (.cons "execution_time" (.num 7) .nil))))))).success = true ↔
      (mkOutcome (Json.obj (.cons "total" (.num 2) (.cons "passed" (.num 2)
        (.cons "failed" (.num 0) (.cons "cases" (.arr .nil)
          (.cons "execution_time" (.num 7) .nil))))))).failed =
        some (.num 0)) ∧
    startTask ⟨"t9", "python", "c", Json.null⟩ (fun _ => .ok ⟨4, 7851, 0, 100⟩)
        (.ok (mkOutcome (Json.obj (.cons "failed" (.num 0) .nil)))) =
      ([Msg.resourceUpdate 4 (0 + (3 : Rat) / 10) 7851 (100 + 128),
        Msg.taskComplete "t9" (mkOutcome (Json.obj (.cons "failed" (.num 0) .nil)))
          "python" ⟨4, 7851, 0, 100⟩
          { memoryLimit := 128, cpuLimit := 3 / 10, timeout := 8000,
            image := "python:3.13.1-alpine", fileExtension := ".py",
            runCommand := ["python"], compileCommand := none },
        Msg.resourceUpdate 4 0 7851 100], true, none) := by
  refine ⟨?_, ?_, ?_⟩
  · exact (taskComplete_success_iff jsonParse 8000 [] (mkOutcome Json.null)
      ⟨"t9", "python", "c", Json.null⟩ (fun _ => .ok ⟨4, 7851, 0, 100⟩)
      ⟨4, 7851, 0, 100⟩ ⟨4, 7851, 0, 100⟩ ⟨4, 7851, 0, 100⟩
      { memoryLimit := 128, cpuLimit := 3 / 10, timeout := 8000,
        image := "python:3.13.1-alpine", fileExtension := ".py",
        runCommand := ["python"], compileCommand := none }).1
      (Json.obj (.cons "failed" (.num 0) .nil))
  · exact (taskComplete_success_iff jsonParse 8000
      [Ev.chunk ("\x7b\"type\":\"final_result\",\"data\":\x7b\"total\":2,\"passed\":2,\"failed\":0,\"cases\":[],\"execution_time\":7\x7d\x7d\n".data),
        Ev.wait (.ok 0)]
      (mkOutcome (Json.obj (.cons "total" (.num 2) (.cons "passed" (.num 2)
        (.cons "failed" (.num 0) (.cons "cases" (.arr .nil)
          (.cons "execution_time" (.num 7) .nil)))))))
      ⟨"t9", "python", "c", Json.null⟩ (fun _ => .ok ⟨4, 7851, 0, 100⟩)
      ⟨4, 7851, 0, 100⟩ ⟨4, 7851, 0, 100⟩ ⟨4, 7851, 0, 100⟩
      { memoryLimit := 128, cpuLimit := 3 / 10, timeout := 8000,
        image := "python:3.13.1-alpine", fileExtension := ".py",
        runCommand := ["python"], compileCommand := none }).2.1 rfl
  · exact (taskComplete_success_iff jsonParse 8000 []
      (mkOutcome (Json.obj (.cons "failed" (.num 0) .nil)))
      ⟨"t9", "python", "c", Json.null⟩ (fun _ => .ok ⟨4, 7851, 0, 100⟩)
      ⟨4, 7851, 0, 100⟩ ⟨4, 7851, 0, 100⟩ ⟨4, 7851, 0, 100⟩
      { memoryLimit := 128, cpuLimit := 3 / 10, timeout := 8000,
        image := "python:3.13.1-alpine", fileExtension := ".py",
        runCommand := ["python"], compileCommand := none }).2.2 rfl rfl rfl rfl

/-- The wait callback never touches the buffer. -/
theorem step_wait_buffer (parse : String → Option Json) (st : ExecState)
    (r : Except String Nat) : (step parse st (.wait r)).buffer = st.buffer := by
  simp only [step]
  cases r with
  | error e => rw [settle_buffer]
  | ok code =>
    by_cases hc : code = 0
    · subst hc
      simp only [ne_eq, not_true_eq_false, if_neg, ite_false]
      cases hf : st.finalResults <;> simp only [hf] <;> rw [settle_buffer]
    · simp only [hc, ne_eq, not_false_eq_true, if_true]
      rw [settle_buffer]

/-- Claim C10: when the container exits zero but no complete line of the
stream recorded a `final_result` — in particular when the only
`final_result` sits on a trailing line not terminated by LF — the trailing
text remains in the buffer (which is never flushed at end of stream, lines
being produced only at LF boundaries) and execution fails with the
no-result error instead of returning the outcome. -/
theorem unterminated_final_line_lost (parse : String → Option Json) (t : Nat)
    (chunks : List (List Char))
    (hlines : ∀ (fr : Option JobOutcome) (line : List Char),
      line ∈ (splitLF (stripJoin chunks)).dropLast → lineStep parse fr line = fr) :
    (execEvents parse t (chunks.map Ev.chunk ++ [Ev.wait (.ok 0)])).settled =
      some (.error "No test results received") ∧
    (execEvents parse t (chunks.map Ev.chunk ++ [Ev.wait (.ok 0)])).buffer =
      afterLastLF (stripJoin chunks) := by
  have hmap : execEvents parse t (chunks.map Ev.chunk) =
      chunks.foldl (chunkStep parse) (initExec t) := by
    rw [execEvents, List.foldl_map]
    rfl
  have hbuf0 : '\n' ∉ (initExec t).buffer := by simp [initExec]
  have hfeed := foldl_chunkStep parse chunks (initExec t) hbuf0
  have hfr : ((splitLF ((initExec t).buffer ++ stripJoin chunks)).dropLast).foldl
      (lineStep parse) (initExec t).finalResults = none := by
    show ((splitLF ([] ++ stripJoin chunks)).dropLast).foldl (lineStep parse)
      none = none
    rw [List.nil_append]
    exact foldl_fix _ _ _ (fun x b hb => hlines x b hb)
  constructor
  · rw [execEvents_append_one, hmap, hfeed]
    simp only [step, ne_eq, not_true_eq_false, if_neg, ite_false, hfr]
    exact settle_settled_of_none _ _ rfl
  · rw [execEvents_append_one, hmap, hfeed, step_wait_buffer]
    show (splitLF ([] ++ stripJoin chunks)).getLastD [] = _
    rw [List.nil_append, getLastD_splitLF]

set_option maxRecDepth 40000 in
/-- Instance of the lost-trailing-line claim: a stream consisting of one
decodable `final_result` line with no terminating LF, followed by exit code
zero, fails with the no-result error and leaves the whole line in the
buffer. -/
theorem unterminated_final_line_lost_instance :
    (execEvents jsonParse 8000
        ([("\x7b\"type\":\"final_result\",\"data\":\x7b\"total\":1,\"passed\":1,\"failed\":0,\"cases\":[],\"execution_time\":3\x7d\x7d".data)].map Ev.chunk ++
          [Ev.wait (.ok 0)])).settled =
      some (.error "No test results received") ∧
    (execEvents jsonParse 8000
        ([("\x7b\"type\":\"final_result\",\"data\":\x7b\"total\":1,\"passed\":1,\"failed\":0,\"cases\":[],\"execution_time\":3\x7d\x7d".data)].map Ev.chunk ++
          [Ev.wait (.ok 0)])).buffer =
      afterLastLF (stripJoin
        [("\x7b\"type\":\"final_result\",\"data\":\x7b\"total\":1,\"passed\":1,\"failed\":0,\"cases\":[],\"execution_time\":3\x7d\x7d".data)]) :=
  unterminated_final_line_lost jsonParse 8000
    [("\x7b\"type\":\"final_result\",\"data\":\x7b\"total\":1,\"passed\":1,\"failed\":0,\"cases\":[],\"execution_time\":3\x7d\x7d".data)]
    (by
      intro fr line h
      rw [show (splitLF (stripJoin
        [("\x7b\"type\":\"final_result\",\"data\":\x7b\"total\":1,\"passed\":1,\"failed\":0,\"cases\":[],\"execution_time\":3\x7d\x7d".data)])).dropLast =
        ([] : List (List Char)) from rfl] at h
      exact absurd h (List.not_mem_nil line))

end Worker
